import Mathlib

set_option maxRecDepth 40000

/-!
# Verification of the wahay client certificate module

Shallow embedding of `client/certificate.go` and the client config-file
code of the wahay repository.  Go strings are modelled as `List Char`,
byte slices as `List Nat` (each element a byte value, i.e. `< 256`).

Conventions:
* functions translated from the Go source keep their Go names;
* behaviour of external collaborators (Go standard library `pem`,
  `sha1`, `url`/`net` parsing, the sqlite-database helper object `db`)
  that is not part of the repository sources is modelled from the spec;
  each such definition carries a doc comment starting with
  `Modelled from the spec:`.
-/

namespace Wahay

/-! ## Generic list helpers (substring search / replacement) -/

/-- `hasLead pat l` is true when `pat` is an initial segment of `l`
(the analogue of Go `bytes.HasPrefix` used to model substring search). -/
def hasLead {α : Type} [DecidableEq α] : List α → List α → Bool
  | [], _ => true
  | _ :: _, [] => false
  | p :: ps, c :: cs => decide (p = c) && hasLead ps cs

/-- `occursIn pat l` is true when `pat` occurs contiguously inside `l`
(the analogue of Go `strings.Contains` / `bytes.Contains`). -/
def occursIn {α : Type} [DecidableEq α] (pat : List α) : List α → Bool
  | [] => pat.isEmpty
  | c :: rest => hasLead pat (c :: rest) || occursIn pat rest

/-- Fuelled worker for `replaceAll`: replaces every occurrence of `pat`
by `new`, scanning left to right; `fuel` bounds the number of scan
steps so the recursion is structural (callers supply `fuel = l.length`,
which is always enough because each step consumes at least one element). -/
def replaceAllF {α : Type} [DecidableEq α] (pat new : List α) : Nat → List α → List α
  | 0, l => l
  | _ + 1, [] => []
  | fuel + 1, c :: rest =>
    if pat ≠ [] ∧ hasLead pat (c :: rest) then
      new ++ replaceAllF pat new fuel ((c :: rest).drop pat.length)
    else
      c :: replaceAllF pat new fuel rest

/-- Replace every occurrence of `pat` in `l` by `new`
(the analogue of Go `bytes.ReplaceAll` on a non-empty pattern). -/
def replaceAll {α : Type} [DecidableEq α] (pat new l : List α) : List α :=
  replaceAllF pat new l.length l

/-- Replace only the first occurrence of `pat` in `l` by `new`
(the analogue of Go `strings.Replace(l, pat, new, 1)`). -/
def replaceFirstL (pat new : List Char) : List Char → List Char
  | [] => []
  | c :: rest =>
    if pat ≠ [] ∧ hasLead pat (c :: rest) then new ++ (c :: rest).drop pat.length
    else c :: replaceFirstL pat new rest

/-- Split `l` at the first occurrence of `pat`, returning the part
before the occurrence and the part after it; `none` when `pat` does
not occur. -/
def splitOnSeq {α : Type} [DecidableEq α] (pat : List α) : List α → Option (List α × List α)
  | [] => if pat = [] then some ([], []) else none
  | c :: rest =>
    if hasLead pat (c :: rest) then some ([], (c :: rest).drop pat.length)
    else (splitOnSeq pat rest).map (fun p => (c :: p.1, p.2))

/-- Strip `pat` from the front of `l`; `none` when `l` does not start
with `pat`. -/
def stripLead {α : Type} [DecidableEq α] (pat l : List α) : Option (List α) :=
  if hasLead pat l then some (l.drop pat.length) else none

/-- Byte values of the characters of a string. -/
def listBytes (cs : List Char) : List Nat :=
  cs.map Char.toNat

/-! ## The @ByteArray codec (from `certificate.go`) -/

/-- Go `byteArrayIsHex`: ASCII hexadecimal digit bytes
(`0`-`9` are 48-57, `a`-`f` are 97-102, `A`-`F` are 65-70). -/
def byteArrayIsHex (b : Nat) : Bool :=
  (48 ≤ b && b ≤ 57) || (97 ≤ b && b ≤ 102) || (65 ≤ b && b ≤ 70)

/-- Go `byteArrayIsDigit`: ASCII decimal digit bytes. -/
def byteArrayIsDigit (b : Nat) : Bool :=
  48 ≤ b && b ≤ 57

/-- Go `byteArrayIsPrintable`: lowercase letters (97-122), uppercase
letters (65-90), digits, and the fixed punctuation allow-list of the
source switch statement, given here by byte value in the source's
order: `* + ' space , ; backquote ~ { } ( [ ) ] : . $ | / & ^ = - % < > ! # _ @ ?`. -/
def byteArrayIsPrintable (b : Nat) : Bool :=
  (97 ≤ b && b ≤ 122) || (65 ≤ b && b ≤ 90) || byteArrayIsDigit b ||
    [42, 43, 39, 32, 44, 59, 96, 126, 123, 125, 40, 91, 41, 93, 58,
     46, 36, 124, 47, 38, 94, 61, 45, 37, 60, 62, 33, 35, 95, 64, 63].contains b

/-- Go `byteArrayIsSpecial`: tab 9, CR 13, bell 7, backspace 8,
vertical tab 11, form feed 12, newline 10, NUL 0, double quote 34,
backslash 92. -/
def byteArrayIsSpecial (b : Nat) : Bool :=
  [9, 13, 7, 8, 11, 12, 10, 0, 34, 92].contains b

/-- Go `byteArrayFormatSpecial`: the named two-character escape for a
special byte together with the new value of the hex-escaped flag
(only NUL sets it).  Non-special bytes give the empty fragment, as in
the source's default switch arm. -/
def byteArrayFormatSpecial (b : Nat) : List Char × Bool :=
  if b = 9 then (['\\', 't'], false)
  else if b = 13 then (['\\', 'r'], false)
  else if b = 7 then (['\\', 'a'], false)
  else if b = 8 then (['\\', 'b'], false)
  else if b = 11 then (['\\', 'v'], false)
  else if b = 12 then (['\\', 'f'], false)
  else if b = 10 then (['\\', 'n'], false)
  else if b = 0 then (['\\', '0'], true)
  else if b = 34 then (['\\', '"'], false)
  else if b = 92 then (['\\', '\\'], false)
  else ([], false)

/-- Lowercase hexadecimal digit character for a value `< 16`. -/
def hexChar (n : Nat) : Char :=
  (("0123456789abcdef").data).getD n '0'

/-- Go `byteArrayFormatEscaped`: hex-escape a byte; the source drops
the leading `0` of the two-character lowercase hex rendering (for a
byte `b < 256`, `hex.EncodeToString` yields `hexChar (b / 16)` then
`hexChar (b % 16)`, and its first character is `0` exactly when
`b / 16 = 0`).  Always sets the hex-escaped flag. -/
def byteArrayFormatEscaped (b : Nat) : List Char × Bool :=
  if b / 16 = 0 then (['\\', 'x', hexChar (b % 16)], true)
  else (['\\', 'x', hexChar (b / 16), hexChar (b % 16)], true)

/-- Go `byteArrayUnparseByte`: encode one byte given the carried
hex-escaped flag, returning the emitted fragment and the new flag. -/
def byteArrayUnparseByte (b : Nat) (previousHexBefore : Bool) : List Char × Bool :=
  if byteArrayIsHex b && previousHexBefore then byteArrayFormatEscaped b
  else if byteArrayIsPrintable b then ([Char.ofNat b], false)
  else if byteArrayIsSpecial b then byteArrayFormatSpecial b
  else byteArrayFormatEscaped b

/-- The body of the Go `byteArrayUnparse` loop: concatenation of the
per-byte fragments, threading the hex-escaped flag. -/
def encodeBody : List Nat → Bool → List Char
  | [], _ => []
  | b :: bs, flag =>
    (byteArrayUnparseByte b flag).1 ++ encodeBody bs (byteArrayUnparseByte b flag).2

/-- The characters of the opening token `@ByteArray(`. -/
def baOpen : List Char := ("@ByteArray(").data

/-- Go `byteArrayUnparse`: the opening token, then the per-byte
fragments starting with a cleared hex-escaped flag, then `)`. -/
def byteArrayUnparse (bs : List Nat) : List Char :=
  baOpen ++ (encodeBody bs false ++ [')'])

/-! ### Decoding (modelled from the spec)

The decoder is test-support code outside the given sources.  Modelled
from the spec: strip the `@ByteArray(` and `)` tokens, then scan left
to right consuming a literal printable character, a named
two-character escape, or a one- or two-digit `\x` hex escape
(consuming two hex digits when both are available). -/

/-- Whether a character is an ASCII hexadecimal digit. -/
def isHexChar (c : Char) : Bool := byteArrayIsHex c.toNat

/-- Value of a hexadecimal digit character. -/
def hexCharVal (c : Char) : Nat :=
  if 48 ≤ c.toNat ∧ c.toNat ≤ 57 then c.toNat - 48
  else if 97 ≤ c.toNat ∧ c.toNat ≤ 102 then c.toNat - 87
  else if 65 ≤ c.toNat ∧ c.toNat ≤ 70 then c.toNat - 55
  else 0

/-- The byte denoted by the second character of a named two-character
escape. -/
def namedEscapeByte (c : Char) : Option Nat :=
  if c = 't' then some 9
  else if c = 'r' then some 13
  else if c = 'a' then some 7
  else if c = 'b' then some 8
  else if c = 'v' then some 11
  else if c = 'f' then some 12
  else if c = 'n' then some 10
  else if c = '0' then some 0
  else if c = '"' then some 34
  else if c = '\\' then some 92
  else none

/-- Modelled from the spec: consume one token of the encoded body — a
hex escape (two digits when available, else one), a named escape, or a
literal printable character — returning the byte and the remaining
characters. -/
def decodeTok : List Char → Option (Nat × List Char)
  | [] => none
  | c :: rest =>
    if c = '\\' then
      match rest with
      | [] => none
      | e :: rest2 =>
        if e = 'x' then
          match rest2 with
          | [] => none
          | d1 :: rest3 =>
            if isHexChar d1 then
              match rest3 with
              | [] => some (hexCharVal d1, [])
              | d2 :: rest4 =>
                if isHexChar d2 then some (16 * hexCharVal d1 + hexCharVal d2, rest4)
                else some (hexCharVal d1, d2 :: rest4)
            else none
        else
          match namedEscapeByte e with
          | some b => some (b, rest2)
          | none => none
    else if byteArrayIsPrintable c.toNat then some (c.toNat, rest)
    else none

/-- Fuelled token loop of the decoder; `fuel` bounds the number of
tokens and is sufficient whenever `fuel ≥ l.length` because every
token consumes at least one character. -/
def decodeCharsF : Nat → List Char → Option (List Nat)
  | 0, [] => some []
  | 0, _ :: _ => none
  | _ + 1, [] => some []
  | fuel + 1, c :: rest =>
    match decodeTok (c :: rest) with
    | none => none
    | some (b, rem) => (decodeCharsF fuel rem).map (fun t => b :: t)

/-- Decode an encoded body (the part between the tokens). -/
def decodeChars (l : List Char) : Option (List Nat) := decodeCharsF l.length l

/-- Modelled from the spec: the full decoder — strip the `@ByteArray(`
and `)` tokens and decode the body. -/
def byteArrayParse (l : List Char) : Option (List Nat) :=
  let body := (l.drop 11).dropLast
  if l = baOpen ++ (body ++ [')']) then decodeChars body else none

/-- Whether a character sequence does not start with a hexadecimal
digit (vacuously true when empty). -/
def headNotHex : List Char → Bool
  | [] => true
  | c :: _ => !(isHexChar c)

/-! ## SHA-1 and the certificate digest

`digestForCertificate` in the source hashes the DER bytes with Go's
`crypto/sha1` and renders the digest with `fmt.Sprintf("%x", ...)`.
The hash itself lives in the Go standard library, outside this
repository, so it is modelled here from the spec's requirement
`Fingerprint.digest = hex(SHA1(derBytes))` by a full executable SHA-1
(FIPS 180 as referenced by the spec's "SHA-1").  Words are `Nat`
reduced modulo `2 ^ 32`. -/

/-- Truncate to a 32-bit word. -/
def w32 (n : Nat) : Nat := n % 4294967296

/-- Rotate a 32-bit word left by `k` bits (for `n < 2 ^ 32` the two
summands occupy disjoint bit ranges, so addition is bitwise or). -/
def rotl32 (n k : Nat) : Nat :=
  (n * 2 ^ k) % 4294967296 + n / 2 ^ (32 - k)

/-- Modelled from the spec: the SHA-1 round function (round `i`). -/
def sha1F (i b c d : Nat) : Nat :=
  if i < 20 then (b &&& c) ||| ((b ^^^ 4294967295) &&& d)
  else if i < 40 then b ^^^ c ^^^ d
  else if i < 60 then (b &&& c) ||| (b &&& d) ||| (c &&& d)
  else b ^^^ c ^^^ d

/-- Modelled from the spec: the SHA-1 round constants. -/
def sha1K (i : Nat) : Nat :=
  if i < 20 then 1518500249
  else if i < 40 then 1859775393
  else if i < 60 then 2400959708
  else 3395469782

/-- Big-endian 32-bit words from groups of four bytes. -/
def beWords : List Nat → List Nat
  | b1 :: b2 :: b3 :: b4 :: rest => (((b1 * 256 + b2) * 256 + b3) * 256 + b4) :: beWords rest
  | _ => []

/-- Extend the 16 message words to 80, keeping the schedule reversed
(most recent word first) while extending. -/
def sha1ExtendR (rws : List Nat) : Nat → List Nat
  | 0 => rws.reverse
  | n + 1 =>
    sha1ExtendR
      (rotl32 (rws.getD 2 0 ^^^ rws.getD 7 0 ^^^ rws.getD 13 0 ^^^ rws.getD 15 0) 1 :: rws) n

/-- The five 32-bit words of the SHA-1 state. -/
structure Sha1H where
  a : Nat
  b : Nat
  c : Nat
  d : Nat
  e : Nat

/-- One SHA-1 round on the working state, given `(i, w[i])`. -/
def sha1Step (st : Sha1H) (iw : Nat × Nat) : Sha1H :=
  ⟨w32 (rotl32 st.a 5 + sha1F iw.1 st.b st.c st.d + st.e + sha1K iw.1 + iw.2),
   st.a, rotl32 st.b 30, st.c, st.d⟩

/-- Compress one 64-byte block into the hash state. -/
def sha1Compress (h : Sha1H) (block : List Nat) : Sha1H :=
  let ws := sha1ExtendR (beWords block).reverse 64
  let f := (List.zip (List.range 80) ws).foldl sha1Step h
  ⟨w32 (h.a + f.a), w32 (h.b + f.b), w32 (h.c + f.c), w32 (h.d + f.d), w32 (h.e + f.e)⟩

/-- Big-endian 8-byte rendering of the message bit length. -/
def be64 (n : Nat) : List Nat :=
  [n / 2 ^ 56 % 256, n / 2 ^ 48 % 256, n / 2 ^ 40 % 256, n / 2 ^ 32 % 256,
   n / 2 ^ 24 % 256, n / 2 ^ 16 % 256, n / 2 ^ 8 % 256, n % 256]

/-- SHA-1 padding: a `0x80` byte, zeros to 56 mod 64, then the bit
length in 8 big-endian bytes. -/
def sha1Pad (msg : List Nat) : List Nat :=
  msg ++ [128] ++ List.replicate ((120 - (msg.length + 1) % 64) % 64) 0 ++ be64 (8 * msg.length)

/-- Fold `sha1Compress` over the 64-byte blocks of `msg`; `fuel`
bounds the recursion structurally and is sufficient whenever
`fuel ≥ msg.length` because every step consumes 64 bytes. -/
def sha1Blocks (h : Sha1H) : Nat → List Nat → Sha1H
  | 0, _ => h
  | fuel + 1, msg =>
    if msg = [] then h else sha1Blocks (sha1Compress h (msg.take 64)) fuel (msg.drop 64)

/-- The SHA-1 initialisation vector. -/
def sha1Init : Sha1H := ⟨1732584193, 4023233417, 2562383102, 271733878, 3285377520⟩

/-- Big-endian 4-byte rendering of a 32-bit word. -/
def be32 (n : Nat) : List Nat :=
  [n / 2 ^ 24 % 256, n / 2 ^ 16 % 256, n / 2 ^ 8 % 256, n % 256]

/-- Modelled from the spec: SHA-1 of a byte sequence (Go `crypto/sha1`,
which is standard-library code outside this repository). -/
def sha1Bytes (msg : List Nat) : List Nat :=
  let p := sha1Pad msg
  let hh := sha1Blocks sha1Init p.length p
  be32 hh.a ++ be32 hh.b ++ be32 hh.c ++ be32 hh.d ++ be32 hh.e

/-- Lowercase hexadecimal rendering of a byte sequence, two characters
per byte (Go `fmt.Sprintf("%x", bs)`); for byte values the inner
`% 16` is the identity and only keeps the function total on `Nat`. -/
def bytesToHex : List Nat → List Char
  | [] => []
  | b :: bs => hexChar (b / 16 % 16) :: hexChar (b % 16) :: bytesToHex bs

/-- Go `digestForCertificate`: lowercase hex of the SHA-1 of the DER
bytes (the error branch of the source is unreachable because the
hash's `Write` never fails). -/
def digestForCertificate (cert : List Nat) : List Char :=
  bytesToHex (sha1Bytes cert)

/-! ## Errors

The error values of the certificate and config-file operations, one
constructor per distinct error message / spec error class. -/

inductive CertErr
  | invalidCertificate
  | placeholderNotFound
  | invalidIniFile
  | invalidAddress
deriving DecidableEq

instance {ε α : Type} [DecidableEq ε] [DecidableEq α] : DecidableEq (Except ε α) := fun x y =>
  match x, y with
  | .ok a, .ok b =>
    match decEq a b with
    | .isTrue h => .isTrue (by rw [h])
    | .isFalse h => .isFalse (fun hh => h (Except.ok.inj hh))
  | .ok _, .error _ => .isFalse (fun hh => Except.noConfusion hh)
  | .error _, .ok _ => .isFalse (fun hh => Except.noConfusion hh)
  | .error a, .error b =>
    match decEq a b with
    | .isTrue h => .isTrue (by rw [h])
    | .isFalse h => .isFalse (fun hh => h (Except.error.inj hh))

/-! ## PEM decoding

`pem.Decode` is Go standard-library code, outside this repository.
Modelled from the spec: a PEM block is "base64 within delimiter
lines"; the decoder locates the `-----BEGIN <type>-----` and
`-----END <type>-----` delimiters and base64-decodes the body. -/

/-- Base64 value of one alphabet byte (`A`-`Z`, `a`-`z`, `0`-`9`,
`+`, `/`); `none` for bytes outside the alphabet. -/
def b64Val (c : Nat) : Option Nat :=
  if 65 ≤ c ∧ c ≤ 90 then some (c - 65)
  else if 97 ≤ c ∧ c ≤ 122 then some (c - 71)
  else if 48 ≤ c ∧ c ≤ 57 then some (c + 4)
  else if c = 43 then some 62
  else if c = 47 then some 63
  else none

/-- Standard base64 decoding of a byte sequence, four characters to
three bytes, with `=` padding (byte 61) allowed only at the end. -/
def b64Decode : List Nat → Option (List Nat)
  | [] => some []
  | c1 :: c2 :: c3 :: c4 :: rest => do
    let v1 ← b64Val c1
    let v2 ← b64Val c2
    if c3 = 61 ∧ c4 = 61 ∧ rest = [] then
      some [v1 * 4 + v2 / 16]
    else if c4 = 61 ∧ rest = [] then do
      let v3 ← b64Val c3
      some [v1 * 4 + v2 / 16, v2 % 16 * 16 + v3 / 4]
    else do
      let v3 ← b64Val c3
      let v4 ← b64Val c4
      let t ← b64Decode rest
      some ([v1 * 4 + v2 / 16, v2 % 16 * 16 + v3 / 4, v3 % 4 * 64 + v4] ++ t)
  | _ => none

/-- A decoded PEM block: its type line and its DER payload bytes. -/
structure PemBlock where
  ty : List Nat
  der : List Nat
deriving DecidableEq

/-- Modelled from the spec: `pem.Decode` (Go standard library).  Strips
the `-----BEGIN <type>-----` line, takes the body up to the matching
`-----END <type>-----` delimiter, and base64-decodes the body after
discarding line breaks. -/
def pemDecode (bs : List Nat) : Option PemBlock := do
  let r1 ← stripLead (listBytes (("-----BEGIN ").data)) bs
  let (ty, r2) ← splitOnSeq (listBytes (("-----").data)) r1
  let (body, r3) ← splitOnSeq (listBytes (("-----END ").data)) r2
  let (ty2, _) ← splitOnSeq (listBytes (("-----").data)) r3
  if ty2 = ty then
    let der ← b64Decode (body.filter (fun b => decide (b ≠ 10) && decide (b ≠ 13)))
    some ⟨ty, der⟩
  else none

/-- The bytes of the expected block type `CERTIFICATE`. -/
def certificateType : List Nat := listBytes (("CERTIFICATE").data)

/-! ## The database patch (from `certificate.go`)

The sqlite-database helper object (`db`, with `exists`,
`replaceString`, `replaceInteger` and `write`) lives outside the given
sources; its operations are modelled from the spec: substring search,
replacement of every occurrence of a placeholder, a 2-byte encoding
for the port (byte order fixed here as little-endian; no claim depends
on the order), failure with `placeholderNotFound` when a placeholder
is absent, and an atomic commit that leaves the file untouched on
failure. -/

/-- Go constant `defaultHostToReplace` as bytes. -/
def defaultHostToReplace : List Nat :=
  listBytes (("ffaaffaabbddaabbddeeaaddccaaffeebbaabbeeddeeaaddbbeeeeff.onion").data)

/-- Go constant `defaultDigestToReplace` as bytes. -/
def defaultDigestToReplace : List Nat :=
  listBytes (("AAABACADAFBABBBCBDBEBFCACBCCCDCECFDADBDC").data)

/-- Go constant `defaultPortToReplace`. -/
def defaultPortToReplace : Nat := 64738

/-- Modelled from the spec: the fixed-width 2-byte encoding of a port
used by `db.replaceInteger` (little-endian). -/
def encodeU16 (n : Nat) : List Nat := [n % 256, n / 256 % 256]

/-- Go `storeCertificateInDB`: replace every occurrence of the three
placeholder constants (hostname string, digest string, port bytes) in
the database bytes, in the source's order, and commit; fail with
`placeholderNotFound` when a placeholder is absent at its replacement
step. -/
def storeCertificateInDB (file id : List Nat) (port : Nat) (digest : List Nat) :
    Except CertErr (List Nat) :=
  let c1 := replaceAll defaultHostToReplace id file
  let c2 := replaceAll defaultDigestToReplace digest c1
  let c3 := replaceAll (encodeU16 defaultPortToReplace) (encodeU16 port) c2
  if occursIn defaultHostToReplace file ∧ occursIn defaultDigestToReplace c1 ∧
      occursIn (encodeU16 defaultPortToReplace) c2 then
    .ok c3
  else .error .placeholderNotFound

/-- The database file contents after a `storeCertificateInDB` call:
the committed contents on success, the unchanged contents on failure
(the spec's atomic commit). -/
def storeCertificateInDBFileAfter (file id : List Nat) (port : Nat) (digest : List Nat) :
    List Nat :=
  match storeCertificateInDB file id port digest with
  | .ok f => f
  | .error _ => file

/-- Go `storeCertificate`: skip with success when the hostname is
already in the database (`isTheCertificateInDB`, modelled as substring
search per the spec); otherwise decode the PEM certificate, reject a
missing block or a block type other than `CERTIFICATE`, and patch the
database with the hostname, port and digest. -/
def storeCertificate (file hostname : List Nat) (port : Nat) (cert : List Nat) :
    Except CertErr (List Nat) :=
  if occursIn hostname file then .ok file
  else
    match pemDecode cert with
    | none => .error .invalidCertificate
    | some block =>
      if block.ty = certificateType then
        storeCertificateInDB file hostname port (listBytes (digestForCertificate block.der))
      else .error .invalidCertificate

/-! ## Claim C3: the hex-escaped flag after named escapes -/

/-- The 22 ASCII hexadecimal-digit byte values. -/
def hexDigitBytes : List Nat :=
  [48, 49, 50, 51, 52, 53, 54, 55, 56, 57,
   97, 98, 99, 100, 101, 102, 65, 66, 67, 68, 69, 70]

/-! ## Claim C5: idempotence of the database patch -/

/-- A database template holding all three placeholders and nothing
else. -/
def c5File : List Nat :=
  defaultHostToReplace ++ defaultDigestToReplace ++ encodeU16 defaultPortToReplace

/-- A hostname that contains the digest placeholder as a substring
(byte 90 is `Z`). -/
def c5Host : List Nat := 90 :: defaultDigestToReplace

/-- A well-formed PEM certificate input. -/
def c5Cert : List Nat :=
  listBytes (("-----BEGIN CERTIFICATE-----\nAAAA\n-----END CERTIFICATE-----").data)

/-- First patch invocation of the C5 counterexample. -/
def c5FirstRun : Except CertErr (List Nat) := storeCertificate c5File c5Host 1 c5Cert

/-- Second patch invocation of the C5 counterexample, on the database
produced by the first. -/
def c5SecondRun : Except CertErr (List Nat) :=
  match c5FirstRun with
  | .ok f => storeCertificate f c5Host 1 c5Cert
  | .error e => .error e

/-- Whether a store operation reported success. -/
def exceptIsOk : Except CertErr (List Nat) → Bool
  | .ok _ => true
  | .error _ => false

/-! ## Claim C7: certificate injection into the config file

`saveCertificateConfigFile` reads `c.configFile`, substitutes the
first `#CERTIFICATE` token via `strings.Replace(content, old, new, 1)`
and writes the result back.  The filesystem is modelled by the file's
content: `none` when the file does not exist. -/

/-- The literal token replaced in the config file. -/
def certToken : List Char := ("#CERTIFICATE").data

/-- The replacement prefix `certificate=` of the injected line. -/
def certAssign : List Char := ("certificate=").data

/-- Go `saveCertificateConfigFile`: fails when the config-file path is
unset (empty) or the file does not exist; otherwise replaces the first
occurrence of `#CERTIFICATE` by `certificate=<cert>` and returns the
new content to be written back. -/
def saveCertificateConfigFile (configFilePath : List Char) (fileContent : Option (List Char))
    (cert : List Char) : Except CertErr (List Char) :=
  if configFilePath.length = 0 then .error .invalidIniFile
  else
    match fileContent with
    | none => .error .invalidIniFile
    | some content => .ok (replaceFirstL certToken (certAssign ++ cert) content)

/-! ## Claim C8: address parsing

`extractHostAndPort` delegates to `url.Parse` and `net.SplitHostPort`
of the Go standard library, outside this repository.  Modelled from
the spec: an address shaped like `scheme://host:port[...]` maps to
`(host, port)`; a string without a `://` separator is not URL-shaped,
and an authority without a colon lacks an explicit port; both fail
with the invalid-address error.  The port is the part after the last
colon of the authority, as `net.SplitHostPort` takes it. -/

/-- Modelled from the spec: parse `scheme://host:port[/...]` into
`(host, port)`, failing with `invalidAddress` when the input is not
URL-shaped or the authority has no explicit port. -/
def extractHostAndPort (addr : List Char) : Except CertErr (List Char × List Char) :=
  match splitOnSeq (("://").data) addr with
  | none => .error .invalidAddress
  | some (_, rest) =>
    let authority := rest.takeWhile (fun c => decide (c ≠ '/'))
    match splitOnSeq [':'] authority.reverse with
    | none => .error .invalidAddress
    | some (revPort, revHost) => .ok (revHost.reverse, revPort.reverse)

/-! ## Claim C9: self-signed certificate generation

`genCertInto` calls `rsa.GenerateKey`, `x509.CreateCertificate` and
`pem.Encode` — random, time-dependent and I/O-bound external
collaborators.  The deterministic skeleton of the source is embedded
as the generation plan it passes to them: the certificate template
built from the current time, the RSA modulus size, the PEM block
types, and the permission bits of the two `os.OpenFile` calls. -/

/-- The template fields `genCertInto` fills in (Go `x509.Certificate`).
Times are in seconds; the key-usage field is the Go bit set
(`KeyUsageDigitalSignature = 1`, `KeyUsageKeyEncipherment = 4`). -/
structure CertTemplate where
  serialNumber : Int
  commonName : List Char
  notBefore : Int
  notAfter : Int
  subjectKeyId : List Nat
  keyUsage : Nat
deriving DecidableEq

/-- Go `x509.KeyUsageDigitalSignature`. -/
def keyUsageDigitalSignature : Nat := 1

/-- Go `x509.KeyUsageKeyEncipherment`. -/
def keyUsageKeyEncipherment : Nat := 4

/-- The certificate template of `genCertInto` as a function of the
current time `now` (seconds). -/
def genCertTemplate (now : Int) : CertTemplate :=
  { serialNumber := 0
    commonName := ("Wahay Autogenerated Certificate").data
    notBefore := now - 300
    notAfter := now + 365 * 86400
    subjectKeyId := [1, 2, 3, 4]
    keyUsage := keyUsageKeyEncipherment ||| keyUsageDigitalSignature }

/-- The full generation plan of one `genCertInto` run: the template
and the parameters passed to the key generator, the PEM encoder and
the two file-creation calls. -/
structure GenCertPlan where
  template : CertTemplate
  rsaBits : Nat
  certPemType : List Char
  keyPemType : List Char
  certFileMode : Nat
  keyFileMode : Nat
deriving DecidableEq

/-- Go `genCertInto`: the deterministic parameters of one generation
run at time `now`. -/
def genCertInto (now : Int) : GenCertPlan :=
  { template := genCertTemplate now
    rsaBits := 2048
    certPemType := ("CERTIFICATE").data
    keyPemType := ("RSA PRIVATE KEY").data
    certFileMode := 384
    keyFileMode := 384 }

/-! ## Theorems -/

/-- Known-answer check: the digest of the three bytes of `abc` is the
standard SHA-1 test vector. -/
lemma digestForCertificate_abc :
    digestForCertificate (listBytes (("abc").data)) =
      ("a9993e364706816aba3e25717850c26c9cd0d89d").data := by
  decide

lemma sha1Bytes_length (msg : List Nat) : (sha1Bytes msg).length = 20 := by
  simp [sha1Bytes, be32]

lemma bytesToHex_length (bs : List Nat) : (bytesToHex bs).length = 2 * bs.length := by
  induction bs with
  | nil => simp [bytesToHex]
  | cons b bs ih => simp [bytesToHex, ih]; ring

lemma hexChar_mem_lowercase : ∀ n, n < 16 → hexChar n ∈ ("0123456789abcdef").data := by
  decide

lemma bytesToHex_mem (bs : List Nat) :
    ∀ c ∈ bytesToHex bs, c ∈ ("0123456789abcdef").data := by
  induction bs with
  | nil => simp [bytesToHex]
  | cons b bs ih =>
    intro c hc
    simp only [bytesToHex, List.mem_cons] at hc
    rcases hc with h | h | h
    · exact h ▸ hexChar_mem_lowercase _ (Nat.mod_lt _ (by norm_num))
    · exact h ▸ hexChar_mem_lowercase _ (Nat.mod_lt _ (by norm_num))
    · exact ih c h

/-! ## Claim C4: the certificate fingerprint -/

/-- C4: `digestForCertificate` is a pure function returning exactly the
lowercase hexadecimal rendering of the SHA-1 of the DER bytes: it
equals `bytesToHex (sha1Bytes cert)`, is always 40 characters long,
uses only lowercase hexadecimal characters, and equal DER bytes give
equal digests. -/
theorem digestForCertificate_sha1_hex (cert : List Nat) :
    digestForCertificate cert = bytesToHex (sha1Bytes cert) ∧
    (digestForCertificate cert).length = 40 ∧
    (∀ c ∈ digestForCertificate cert, c ∈ ("0123456789abcdef").data) ∧
    (∀ cert2 : List Nat, cert = cert2 → digestForCertificate cert = digestForCertificate cert2) := by
  refine ⟨rfl, ?_, ?_, ?_⟩
  · rw [digestForCertificate, bytesToHex_length, sha1Bytes_length]
  · exact bytesToHex_mem _
  · intro cert2 h
    rw [h]

/-- Witness for C4 at the concrete DER bytes of `abc`: the first digest
character `a` is a lowercase hexadecimal character, and the digest is
stable under the trivial equality. -/
theorem digestForCertificate_sha1_hex_witness :
    'a' ∈ ("0123456789abcdef").data ∧
    digestForCertificate (listBytes (("abc").data)) =
      digestForCertificate (listBytes (("abc").data)) := by
  refine ⟨?_, ?_⟩
  · exact (digestForCertificate_sha1_hex (listBytes (("abc").data))).2.2.1 'a' (by decide)
  · exact (digestForCertificate_sha1_hex (listBytes (("abc").data))).2.2.2 _ rfl

/-! ## Claim C2: the `{0xAB, '1'}` vector -/

/-- C2: encoding the two-byte sequence `{0xAB, '1'}` (bytes 171 and 49)
hex-escapes both bytes: 0xAB is emitted as `\xab`, and `'1'`, although
printable, is emitted as `\x31` because the preceding output was
hex-escaped.  The full literal is `@ByteArray(\xab\x31)`. -/
theorem byteArrayUnparse_hex_pair_vector :
    byteArrayUnparse [171, 49] =
      ['@', 'B', 'y', 't', 'e', 'A', 'r', 'r', 'a', 'y', '(',
       '\\', 'x', 'a', 'b', '\\', 'x', '3', '1', ')'] ∧
    byteArrayUnparseByte 171 false = (['\\', 'x', 'a', 'b'], true) ∧
    byteArrayUnparseByte 49 true = (['\\', 'x', '3', '1'], true) := by
  decide

/-- C3: emitting the named escape for NUL sets the hex-escaped flag,
while the other nine named escapes clear it; consequently a hex-digit
byte encoded with the flag set is hex-escaped (equal to its
`byteArrayFormatEscaped` form) and with the flag cleared is emitted
literally. -/
theorem byteArrayFormatSpecial_flag :
    (byteArrayFormatSpecial 0).2 = true ∧
    ([9, 13, 7, 8, 11, 12, 10, 34, 92].all
      (fun s => decide ((byteArrayFormatSpecial s).2 = false))) = true ∧
    (hexDigitBytes.all
      (fun b =>
        decide ((byteArrayUnparseByte b true).1 = (byteArrayFormatEscaped b).1) &&
        decide ((byteArrayUnparseByte b false).1 = [Char.ofNat b]))) = true := by
  decide

/-- C5 counterexample: for a hostname that contains the digest
placeholder, the first patch succeeds but — because the digest
substitution rewrites the just-stored hostname — the second invocation
with the same host does not report success: it fails with
`placeholderNotFound`.  So the claim's "both invocations report
success" is false as stated. -/
theorem storeCertificate_idem_counterexample :
    exceptIsOk c5FirstRun = true ∧
    c5SecondRun = .error CertErr.placeholderNotFound := by
  decide

/-- C5 (amended): if the actual hostname is already present in the
database, the patch returns success without modifying the database;
and after a first successful patch whose resulting database still
contains the hostname (which the digest/port substitutions can
destroy when the hostname contains placeholder content), a second
invocation with the same host reports success and leaves the database
byte-identical. -/
theorem storeCertificate_idem_amended :
    (∀ file host port cert, occursIn host file = true →
      storeCertificate file host port cert = .ok file) ∧
    (∀ file host port cert file',
      storeCertificate file host port cert = .ok file' →
      occursIn host file' = true →
      storeCertificate file' host port cert = .ok file') := by
  constructor
  · intro file host port cert h
    simp [storeCertificate, h]
  · intro file host port cert file' _ h
    simp [storeCertificate, h]

/-- Witness for C5 at a concrete host already present in the database
(byte 104 is `h`): both parts of the amended claim apply. -/
theorem storeCertificate_idem_amended_witness :
    storeCertificate [104] [104] 1 [] = .ok [104] := by
  have h1 : storeCertificate [104] [104] 1 [] = .ok [104] :=
    storeCertificate_idem_amended.1 [104] [104] 1 [] (by decide)
  exact storeCertificate_idem_amended.2 [104] [104] 1 [] [104] h1 (by decide)

/-! ## Claim C6: missing placeholders -/

/-- C6: patching a database that contains none of the three
placeholder constants fails with `placeholderNotFound` and leaves the
database file byte-for-byte unmodified. -/
theorem storeCertificateInDB_missing_placeholder
    (file id digest : List Nat) (port : Nat)
    (h1 : occursIn defaultHostToReplace file = false)
    (_h2 : occursIn defaultDigestToReplace file = false)
    (_h3 : occursIn (encodeU16 defaultPortToReplace) file = false) :
    storeCertificateInDB file id port digest = .error CertErr.placeholderNotFound ∧
    storeCertificateInDBFileAfter file id port digest = file := by
  have herr : storeCertificateInDB file id port digest = .error CertErr.placeholderNotFound := by
    simp [storeCertificateInDB, h1]
  exact ⟨herr, by simp [storeCertificateInDBFileAfter, herr]⟩

/-- Witness for C6 at a concrete placeholder-free database. -/
theorem storeCertificateInDB_missing_placeholder_witness :
    storeCertificateInDB [1, 2, 3] [5] 7 [9] = .error CertErr.placeholderNotFound ∧
    storeCertificateInDBFileAfter [1, 2, 3] [5] 7 [9] = [1, 2, 3] :=
  storeCertificateInDB_missing_placeholder [1, 2, 3] [5] [9] 7
    (by decide) (by decide) (by decide)

/-! ## Claim C10: the idempotency check runs before PEM validation -/

/-- C10: in `storeCertificate` the presence check runs before PEM
decoding: whenever the hostname occurs in the database the call
returns success, for every certificate byte sequence (decodable or
not); and the invalid-certificate error can only arise when the
hostname is absent from the database. -/
theorem storeCertificate_check_order :
    (∀ file host port cert, occursIn host file = true →
      storeCertificate file host port cert = .ok file) ∧
    (∀ file host port cert,
      storeCertificate file host port cert = .error CertErr.invalidCertificate →
      occursIn host file = false) := by
  constructor
  · intro file host port cert h
    simp [storeCertificate, h]
  · intro file host port cert herr
    by_cases h : occursIn host file = true
    · simp [storeCertificate, h] at herr
    · simpa using h

/-- Witness for C10: with the hostname present, the call succeeds even
on the empty certificate input, which is not decodable PEM. -/
theorem storeCertificate_check_order_witness :
    storeCertificate [104, 105] [105] 1 [] = .ok [104, 105] ∧ pemDecode [] = none :=
  ⟨storeCertificate_check_order.1 [104, 105] [105] 1 [] (by decide), by decide⟩

lemma hasLead_append_self {α : Type} [DecidableEq α] (p r : List α) :
    hasLead p (p ++ r) = true := by
  induction p with
  | nil => rfl
  | cons a ps ih => simp [hasLead, ih]

lemma replaceFirstL_first (pat new : List Char) (hpat : pat ≠ []) :
    ∀ pre post : List Char,
      (∀ i, i < pre.length → hasLead pat ((pre ++ pat ++ post).drop i) = false) →
      replaceFirstL pat new (pre ++ pat ++ post) = pre ++ new ++ post := by
  intro pre
  induction pre with
  | nil =>
    intro post _
    cases pat with
    | nil => exact absurd rfl hpat
    | cons q qs =>
      have hl : hasLead (q :: qs) (q :: (qs ++ post)) = true := by
        simpa using hasLead_append_self (q :: qs) post
      simp only [List.nil_append, List.cons_append]
      rw [replaceFirstL]
      simp [hl, List.drop_left]
  | cons a pre ih =>
    intro post hfirst
    have h0 := hfirst 0 (by simp)
    simp only [List.drop_zero] at h0
    have hstep : (a :: pre) ++ pat ++ post = a :: (pre ++ pat ++ post) := by simp
    rw [hstep, replaceFirstL]
    rw [hstep] at h0
    rw [List.append_assoc] at h0
    rw [if_neg (by simp [h0])]
    rw [ih post (fun i hi => ?_)]
    · simp
    · have := hfirst (i + 1) (by simpa using Nat.succ_lt_succ hi)
      rw [hstep] at this
      simpa using this

/-- C7: certificate injection replaces exactly the first occurrence of
`#CERTIFICATE` (any later occurrences stay untouched, sitting
unchanged inside the preserved tail), and the call fails when the
config-file path is unset or the file does not exist. -/
theorem saveCertificateConfigFile_first_only :
    (∀ fc cert, saveCertificateConfigFile [] fc cert = .error CertErr.invalidIniFile) ∧
    (∀ p cert, saveCertificateConfigFile p none cert = .error CertErr.invalidIniFile) ∧
    (∀ p pre post cert, p ≠ [] →
      (∀ i, i < pre.length → hasLead certToken ((pre ++ certToken ++ post).drop i) = false) →
      saveCertificateConfigFile p (some (pre ++ certToken ++ post)) cert =
        .ok (pre ++ (certAssign ++ cert) ++ post)) := by
  refine ⟨?_, ?_, ?_⟩
  · intro fc cert
    simp [saveCertificateConfigFile]
  · intro p cert
    cases p with
    | nil => simp [saveCertificateConfigFile]
    | cons c cs => simp [saveCertificateConfigFile]
  · intro p pre post cert hp hfirst
    have hlen : ¬ p.length = 0 := by
      cases p with
      | nil => exact absurd rfl hp
      | cons c cs => simp
    simp only [saveCertificateConfigFile, hlen, if_false]
    rw [replaceFirstL_first certToken (certAssign ++ cert) (by decide) pre post hfirst]

/-- Witness for C7 at a file with two occurrences of the token: only
the first is substituted; the second survives in the tail. -/
theorem saveCertificateConfigFile_first_only_witness :
    saveCertificateConfigFile (("mumble.ini").data)
        (some (("a").data ++ certToken ++ (("b#CERTIFICATEc").data))) (("K").data) =
      .ok (("a").data ++ (certAssign ++ ("K").data) ++ (("b#CERTIFICATEc").data)) :=
  saveCertificateConfigFile_first_only.2.2 (("mumble.ini").data) (("a").data)
    (("b#CERTIFICATEc").data) (("K").data) (by decide) (by decide)

/-- C8: `http://host:1234/path` parses to `(host, "1234")`; `not a url`
is not URL-shaped and fails with the invalid-address error, as does
`http://host/path`, whose authority lacks an explicit port. -/
theorem extractHostAndPort_vectors :
    extractHostAndPort (("http://host:1234/path").data) =
      .ok ((("host").data, ("1234").data)) ∧
    extractHostAndPort (("not a url").data) = .error CertErr.invalidAddress ∧
    extractHostAndPort (("http://host/path").data) = .error CertErr.invalidAddress := by
  decide

/-- C9: every generation run uses a 2048-bit RSA key and a template
with serial number 0, the fixed common name, `NotBefore = now - 300` s,
`NotAfter = now + 365` days, subject-key identifier `[1,2,3,4]`, and
key usage exactly key-encipherment plus digital-signature; both PEM
files are created with owner-only read/write permission (0600 octal =
384). -/
theorem genCertInto_parameters (now : Int) :
    (genCertInto now).rsaBits = 2048 ∧
    (genCertInto now).template.serialNumber = 0 ∧
    (genCertInto now).template.commonName = ("Wahay Autogenerated Certificate").data ∧
    (genCertInto now).template.notBefore = now - 300 ∧
    (genCertInto now).template.notAfter = now + 365 * 86400 ∧
    (genCertInto now).template.subjectKeyId = [1, 2, 3, 4] ∧
    (genCertInto now).template.keyUsage =
      (keyUsageKeyEncipherment ||| keyUsageDigitalSignature) ∧
    (genCertInto now).certPemType = ("CERTIFICATE").data ∧
    (genCertInto now).keyPemType = ("RSA PRIVATE KEY").data ∧
    (genCertInto now).certFileMode = 384 ∧
    (genCertInto now).keyFileMode = 384 := by
  refine ⟨rfl, rfl, rfl, rfl, rfl, rfl, rfl, rfl, rfl, rfl, rfl⟩

/-! ## Claim C1: the codec round-trip -/

lemma hexChar_isHexChar : ∀ n, n < 16 → isHexChar (hexChar n) = true := by
  decide

lemma hexCharVal_hexChar : ∀ n, n < 16 → hexCharVal (hexChar n) = n := by
  decide

lemma charOfNat_toNat : ∀ b, b < 256 → (Char.ofNat b).toNat = b := by
  decide

lemma printable_char_ne_backslash :
    ∀ b, b < 256 → byteArrayIsPrintable b = true → ¬ (Char.ofNat b = '\\') := by
  decide

lemma special_enum :
    ∀ b, b < 256 → byteArrayIsSpecial b = true →
      b = 9 ∨ b = 13 ∨ b = 7 ∨ b = 8 ∨ b = 11 ∨ b = 12 ∨ b = 10 ∨ b = 0 ∨ b = 34 ∨ b = 92 := by
  decide

lemma frag_ne_nil :
    ∀ b, b < 256 →
      ((byteArrayUnparseByte b true).1 ≠ [] ∧ (byteArrayUnparseByte b false).1 ≠ []) := by
  decide

lemma frag_true_headNotHex :
    ∀ b, b < 256 → headNotHex ((byteArrayUnparseByte b true).1) = true := by
  decide

lemma headNotHex_append (l r : List Char) (h : l ≠ []) :
    headNotHex (l ++ r) = headNotHex l := by
  cases l with
  | nil => exact absurd rfl h
  | cons c cs => rfl

lemma headNotHex_encodeBody_true (bs : List Nat) (h : ∀ b ∈ bs, b < 256) :
    headNotHex (encodeBody bs true) = true := by
  cases bs with
  | nil => rfl
  | cons b bs =>
    have hb : b < 256 := h b (by simp)
    have hstep : encodeBody (b :: bs) true =
        (byteArrayUnparseByte b true).1 ++ encodeBody bs (byteArrayUnparseByte b true).2 := rfl
    rw [hstep, headNotHex_append _ _ (frag_ne_nil b hb).1]
    exact frag_true_headNotHex b hb

/-- Decoding one emitted hex-escape fragment recovers the byte, as long
as what follows does not begin with a hexadecimal digit. -/
lemma decodeTok_escaped (b : Nat) (hb : b < 256) (rest : List Char)
    (hhead : headNotHex rest = true) :
    decodeTok ((byteArrayFormatEscaped b).1 ++ rest) = some (b, rest) := by
  by_cases hlt : b < 16
  · have h16 : b / 16 = 0 := by omega
    have hmod : b % 16 = b := by omega
    have hfr : (byteArrayFormatEscaped b).1 = ['\\', 'x', hexChar b] := by
      rw [← hmod]
      simp [byteArrayFormatEscaped, h16]
    rw [hfr]
    have hd1 : isHexChar (hexChar b) = true := hexChar_isHexChar _ (by omega)
    have hv1 : hexCharVal (hexChar b) = b := hexCharVal_hexChar _ (by omega)
    cases rest with
    | nil => simp [decodeTok, hd1, hv1]
    | cons c r =>
      have hc : isHexChar c = false := by simpa [headNotHex] using hhead
      simp [decodeTok, hd1, hc, hv1]
  · have h16 : ¬ b / 16 = 0 := by omega
    have hfr : (byteArrayFormatEscaped b).1 = ['\\', 'x', hexChar (b / 16), hexChar (b % 16)] := by
      simp [byteArrayFormatEscaped, h16]
    rw [hfr]
    have hd1 : isHexChar (hexChar (b / 16)) = true := hexChar_isHexChar _ (by omega)
    have hd2 : isHexChar (hexChar (b % 16)) = true := hexChar_isHexChar _ (by omega)
    have hv1 : hexCharVal (hexChar (b / 16)) = b / 16 := hexCharVal_hexChar _ (by omega)
    have hv2 : hexCharVal (hexChar (b % 16)) = b % 16 := hexCharVal_hexChar _ (by omega)
    simp [decodeTok, hd1, hd2, hv1, hv2]
    omega

/-- Decoding the fragment emitted for one byte recovers that byte and
leaves the rest; when the fragment sets the hex-escaped flag the rest
must not begin with a hexadecimal digit (which the encoder
guarantees). -/
lemma decodeTok_frag (b : Nat) (hb : b < 256) (flag : Bool) (rest : List Char)
    (hhead : (byteArrayUnparseByte b flag).2 = true → headNotHex rest = true) :
    decodeTok ((byteArrayUnparseByte b flag).1 ++ rest) = some (b, rest) := by
  by_cases h1 : (byteArrayIsHex b && flag) = true
  · have hfr : byteArrayUnparseByte b flag = byteArrayFormatEscaped b := by
      simp [byteArrayUnparseByte, h1]
    rw [hfr] at hhead ⊢
    refine decodeTok_escaped b hb rest (hhead ?_)
    unfold byteArrayFormatEscaped
    split <;> rfl
  · by_cases h2 : byteArrayIsPrintable b = true
    · have hfr : byteArrayUnparseByte b flag = ([Char.ofNat b], false) := by
        simp [byteArrayUnparseByte, h1, h2]
      rw [hfr]
      have hnb : ¬ (Char.ofNat b = '\\') := printable_char_ne_backslash b hb h2
      have ht : (Char.ofNat b).toNat = b := charOfNat_toNat b hb
      simp [decodeTok, hnb, ht, h2]
    · by_cases h3 : byteArrayIsSpecial b = true
      · have hfr : byteArrayUnparseByte b flag = byteArrayFormatSpecial b := by
          simp [byteArrayUnparseByte, h1, h2, h3]
        rw [hfr]
        rcases special_enum b hb h3 with h | h | h | h | h | h | h | h | h | h <;>
          subst h <;> simp [byteArrayFormatSpecial, decodeTok, namedEscapeByte]
      · have hfr : byteArrayUnparseByte b flag = byteArrayFormatEscaped b := by
          simp [byteArrayUnparseByte, h1, h2, h3]
        rw [hfr] at hhead ⊢
        refine decodeTok_escaped b hb rest (hhead ?_)
        unfold byteArrayFormatEscaped
        split <;> rfl

/-- Decoding the encoded body recovers the byte sequence, for any fuel
at least the body's length. -/
lemma decodeCharsF_encodeBody :
    ∀ bs : List Nat, ∀ flag : Bool, ∀ fuel : Nat,
      (∀ b ∈ bs, b < 256) → (encodeBody bs flag).length ≤ fuel →
      decodeCharsF fuel (encodeBody bs flag) = some bs := by
  intro bs
  induction bs with
  | nil =>
    intro flag fuel _ _
    cases fuel <;> rfl
  | cons b bs ih =>
    intro flag fuel hlt hfuel
    have hb : b < 256 := hlt b (by simp)
    have hbs : ∀ x ∈ bs, x < 256 := fun x hx => hlt x (by simp [hx])
    have henc : encodeBody (b :: bs) flag =
        (byteArrayUnparseByte b flag).1 ++ encodeBody bs (byteArrayUnparseByte b flag).2 := rfl
    have hne : (byteArrayUnparseByte b flag).1 ≠ [] := by
      cases flag
      · exact (frag_ne_nil b hb).2
      · exact (frag_ne_nil b hb).1
    have htok : decodeTok ((byteArrayUnparseByte b flag).1 ++
        encodeBody bs (byteArrayUnparseByte b flag).2) =
        some (b, encodeBody bs (byteArrayUnparseByte b flag).2) :=
      decodeTok_frag b hb flag _
        (fun hf => by rw [hf]; exact headNotHex_encodeBody_true bs hbs)
    obtain ⟨c, l', hl⟩ : ∃ c l', (byteArrayUnparseByte b flag).1 ++
        encodeBody bs (byteArrayUnparseByte b flag).2 = c :: l' := by
      cases hfr : (byteArrayUnparseByte b flag).1 with
      | nil => exact absurd hfr hne
      | cons c cs => exact ⟨c, cs ++ encodeBody bs (byteArrayUnparseByte b flag).2, by simp [hfr]⟩
    have hfraglen : 0 < (byteArrayUnparseByte b flag).1.length := List.length_pos.mpr hne
    cases fuel with
    | zero =>
      rw [henc] at hfuel
      simp only [List.length_append, Nat.le_zero] at hfuel
      omega
    | succ f =>
      rw [henc, hl]
      have hred : decodeCharsF (f + 1) (c :: l') =
          match decodeTok (c :: l') with
          | none => none
          | some (x, rem) => (decodeCharsF f rem).map (fun t => x :: t) := rfl
      rw [hred, ← hl, htok]
      have hrest : (encodeBody bs (byteArrayUnparseByte b flag).2).length ≤ f := by
        rw [henc] at hfuel
        simp only [List.length_append] at hfuel
        omega
      show (decodeCharsF f (encodeBody bs (byteArrayUnparseByte b flag).2)).map
          (fun t => b :: t) = some (b :: bs)
      rw [ih (byteArrayUnparseByte b flag).2 f hbs hrest]
      rfl

/-- C1: decoding the encoding round-trips: for every byte sequence,
`byteArrayParse (byteArrayUnparse bs) = some bs`, where the decoder
strips the `@ByteArray(` / `)` tokens and consumes literal printable
characters, named two-character escapes, and one- or two-digit `\x`
hex escapes. -/
theorem byteArray_roundtrip (bs : List Nat) (h : ∀ b ∈ bs, b < 256) :
    byteArrayParse (byteArrayUnparse bs) = some bs := by
  have hdrop : (byteArrayUnparse bs).drop 11 = encodeBody bs false ++ [')'] := by
    have h11 : baOpen.length = 11 := rfl
    rw [byteArrayUnparse, ← h11, List.drop_left]
  have hdl : (encodeBody bs false ++ [')']).dropLast = encodeBody bs false := by
    simp
  simp only [byteArrayParse, hdrop, hdl]
  have hcond : byteArrayUnparse bs = baOpen ++ (encodeBody bs false ++ [')']) := rfl
  rw [if_pos hcond]
  show decodeCharsF (encodeBody bs false).length (encodeBody bs false) = some bs
  exact decodeCharsF_encodeBody bs false (encodeBody bs false).length h (Nat.le_refl _)

/-- Witness for C1 at a concrete input exercising every encoder branch
(NUL, a hex digit after NUL, a raw byte, backslash, a letter after a
hex escape, a newline). -/
theorem byteArray_roundtrip_witness :
    byteArrayParse (byteArrayUnparse [0, 49, 171, 92, 103, 10]) =
      some [0, 49, 171, 92, 103, 10] :=
  byteArray_roundtrip [0, 49, 171, 92, 103, 10] (by decide)

end Wahay
